import Mathlib

/-!
Verification of the vault link-consistency engine of mcp-obsidian-thinking.

The engine lives in `src/mcp_obsidian/obsidian.py` (API backend) and
`src/mcp_obsidian/github_backend.py` (local backend).  Text is modelled as
`List Char`; the backend existence primitive (`_file_exists_in_vault`) is
modelled as an oracle `ex : List Char → Bool`, since it is backend I/O.
Regex-driven scans are embedded as explicit left-to-right scanners with the
same match semantics as the Python patterns; scanners that consume more than
one character per step carry a fuel argument initialised to the text length,
which always suffices because every step consumes at least one character.
-/

namespace Vault

abbrev Text := List Char

/-- The double-quote character (avoids quote-heavy literals). -/
def dq : Char := Char.ofNat 34

/-- The single-quote character. -/
def sq : Char := Char.ofNat 39

/-- Python `str.strip()` whitespace, ASCII range (space, tab, LF, CR, VT, FF). -/
def pyWsChar (c : Char) : Bool :=
  c = ' ' || c = '\t' || c = '\n' || c = '\r' || c = Char.ofNat 11 || c = Char.ofNat 12

/-- Python `s.strip()`. -/
def pyStrip (l : Text) : Text :=
  ((l.dropWhile pyWsChar).reverse.dropWhile pyWsChar).reverse

/-- The literal `".md"` as text. -/
def mdL : Text := (".md".toList)

/-- Python `s.endswith(".md")`. -/
def endsWithMd (l : Text) : Bool := mdL.isSuffixOf l

/-- Python `s[:-3] if s.endswith(".md") else s` (strip one `.md` extension). -/
def stripMdExt (l : Text) : Text :=
  if endsWithMd l then l.take (l.length - 3) else l

/-- `re.sub(r"(?:\.\./|\./)+", "", s)`: every occurrence of a run of `../` /
`./` units is deleted; the scanner consumes greedily, exactly as the regex. -/
def stripDotSlash : Text → Text
  | '.' :: '.' :: '/' :: r => stripDotSlash r
  | '.' :: '/' :: r => stripDotSlash r
  | c :: t => c :: stripDotSlash t
  | [] => []

/-- Python `s.split("/")[-1]` (the final path segment), via an accumulator. -/
def lastSegAux (cur : Text) : Text → Text
  | [] => cur.reverse
  | '/' :: t => lastSegAux [] t
  | c :: t => lastSegAux (c :: cur) t

/-- Python `s.split("/")[-1]`. -/
def lastSeg (l : Text) : Text := lastSegAux [] l

/-- Python `s.split(sep, 1)` on a one-character separator: text before the
first occurrence and text after it, or `none` when the separator is absent. -/
def splitFirst (sep : Char) : Text → Option (Text × Text)
  | [] => none
  | c :: t =>
    if c = sep then some ([], t)
    else
      match splitFirst sep t with
      | some (a, b) => some (c :: a, b)
      | none => none

/-- `normalized_path` / `normalized_content` of `normalize_wiki_link`: strip
relative prefixes, keep only the final segment when a `/` remains, strip the
`.md` extension. -/
def normalizedName (l : Text) : Text :=
  let n1 := stripDotSlash l
  let n2 := if n1.contains '/' then lastSeg n1 else n1
  stripMdExt n2

/-- `original_path_clean` of `normalize_wiki_link`: strip relative prefixes
and the `.md` extension but keep directory components. -/
def origClean (l : Text) : Text := stripMdExt (stripDotSlash l)

/-- The four existence candidates of the resolution test, in source order:
`original_clean`, `original_clean + ".md"`, `normalized`, `normalized + ".md"`. -/
def resolveCandidates (t : Text) : List Text :=
  [origClean t, origClean t ++ mdL, normalizedName t, normalizedName t ++ mdL]

/-- The resolution test of `normalize_wiki_link`: the four-way `or` of
`_file_exists_in_vault` over the candidates (Lean `||` short-circuits exactly
as Python `or`). -/
def resolveOk (ex : Text → Bool) (t : Text) : Bool :=
  ex (origClean t) || ex (origClean t ++ mdL) ||
    ex (normalizedName t) || ex (normalizedName t ++ mdL)

/-- A full wiki-link span `[[c]]` around inner content `c` (the shape of
`match.group(0)` for the pattern and of every emitted replacement). -/
def wikiSpan (c : Text) : Text := '[' :: '[' :: c ++ [']', ']']

/-- `normalize_wiki_link` of `obsidian.py::_process_body_content` (also the
handler of `_normalize_frontmatter_links`, which is byte-identical logic):
given the capture `c` of `\[\[([^\]]+)\]\]`, branch on a display `|`,
strip path and display (API backend strips both), resolve, and emit the
canonical span on success or the original span on failure. -/
def obsNormLink (ex : Text → Bool) (c : Text) : Text :=
  if c.contains '|' then
    match splitFirst '|' c with
    | some (p0, d0) =>
      let lp := pyStrip p0
      let d := pyStrip d0
      if resolveOk ex lp then wikiSpan (normalizedName lp ++ '|' :: d) else wikiSpan c
    | none => wikiSpan c
  else
    if resolveOk ex c then wikiSpan (normalizedName c) else wikiSpan c

/-- `normalize_wiki_link` of `github_backend.py::_process_body_content`: same
as the API backend's handler except that neither the link path nor the
display text is stripped of whitespace. -/
def ghNormLink (ex : Text → Bool) (c : Text) : Text :=
  if c.contains '|' then
    match splitFirst '|' c with
    | some (lp, d) =>
      if resolveOk ex lp then wikiSpan (normalizedName lp ++ '|' :: d) else wikiSpan c
    | none => wikiSpan c
  else
    if resolveOk ex c then wikiSpan (normalizedName c) else wikiSpan c

/-- The overall success condition of the API backend's `normalize_wiki_link`
(resolution of the stripped link path, or of the whole capture when no
display part is present). -/
def obsLinkResolveOk (ex : Text → Bool) (c : Text) : Bool :=
  if c.contains '|' then
    match splitFirst '|' c with
    | some (p0, _) => resolveOk ex (pyStrip p0)
    | none => false
  else resolveOk ex c

/-- The overall success condition of the local backend's `normalize_wiki_link`. -/
def ghLinkResolveOk (ex : Text → Bool) (c : Text) : Bool :=
  if c.contains '|' then
    match splitFirst '|' c with
    | some (lp, _) => resolveOk ex lp
    | none => false
  else resolveOk ex c

end Vault

namespace Vault

/-- One attempted match of `\[\[([^\]]+)\]\]` at the head of the text:
`[[`, a nonempty run free of `]`, then `]]`; returns the capture and the
rest of the text after the match. -/
def tryWiki : Text → Option (Text × Text)
  | '[' :: '[' :: r =>
    let cap := r.takeWhile (fun c => c ≠ ']')
    match r.dropWhile (fun c => c ≠ ']') with
    | ']' :: ']' :: rest => if cap.isEmpty then none else some (cap, rest)
    | _ => none
  | _ => none

/-- `re.sub(r"\[\[([^\]]+)\]\]", f, content)`: left-to-right non-overlapping
scan, replacing each match by `f capture`; on failure the scan advances one
character.  Fuel is the text length (each step consumes at least one char). -/
def subWikiF (f : Text → Text) : Nat → Text → Text
  | 0, l => l
  | _ + 1, [] => []
  | fuel + 1, c :: t =>
    match tryWiki (c :: t) with
    | some (cap, rest) => f cap ++ subWikiF f fuel rest
    | none => c :: subWikiF f fuel t

/-- `re.sub` of the wiki-link pattern with replacement handler `f`. -/
def subWiki (f : Text → Text) (l : Text) : Text := subWikiF f l.length l

/-- `re.findall(r"\[\[([^\]]+)\]\]", content)` (also the match count of
`re.findall(r"\[\[[^\]]+\]\]", content)`, whose matches coincide). -/
def findWikiF : Nat → Text → List Text
  | 0, _ => []
  | _ + 1, [] => []
  | fuel + 1, c :: t =>
    match tryWiki (c :: t) with
    | some (cap, rest) => cap :: findWikiF fuel rest
    | none => findWikiF fuel t

/-- `re.findall` of the wiki-link pattern. -/
def findWiki (l : Text) : List Text := findWikiF l.length l

/-- `re.findall(q + r"([^q]+\.md)" + q, content)` for a quote character `q`:
at an opening quote, the capture runs to the next quote and must end in
`.md` with at least one preceding character. -/
def findQuotedF (q : Char) : Nat → Text → List Text
  | 0, _ => []
  | _ + 1, [] => []
  | fuel + 1, c :: t =>
    if c = q then
      match splitFirst q t with
      | none => []
      | some (b, rest) =>
        if endsWithMd b && 3 < b.length then b :: findQuotedF q fuel rest
        else findQuotedF q fuel t
    else findQuotedF q fuel t

/-- Quoted-path mention candidates (pattern 1 of `_process_body_content`). -/
def findQuoted (q : Char) (l : Text) : List Text := findQuotedF q l.length l

/-- Lower-cased keyword texts of the contextual pattern, in alternation
order: `from|in|see|based on|according to|source:|reference:`. -/
def kwList : List Text :=
  [("from".toList), ("in".toList), ("see".toList), ("based on".toList),
   ("according to".toList), ("source:".toList), ("reference:".toList)]

/-- Case-insensitive keyword test at the head of the text. -/
def ciPref (kw l : Text) : Bool := (l.take kw.length).map Char.toLower == kw

/-- First keyword (in alternation order) matching at the head; returns its
length.  The keywords are pairwise prefix-incompatible, so at most one can
match at a given position. -/
def tryKw (l : Text) : Option Nat :=
  (kwList.find? (fun kw => ciPref kw l)).map List.length

/-- The character class `[A-Za-z0-9_\-\s/]` of the mention patterns. -/
def classChar (c : Char) : Bool :=
  c.isAlpha || c.isDigit || c = '_' || c = '-' || pyWsChar c || c = '/'

/-- A word character for `\b` (`[A-Za-z0-9_]`). -/
def isWordChar (c : Char) : Bool := c.isAlpha || c.isDigit || c = '_'

/-- Matching `\s+([A-Za-z0-9_\-\s/]+\.md)`-with-capture after a contextual
keyword: the first character must be whitespace, the maximal class run `r`
must have length at least 2 (one char for `\s+`, one for the class `+`) and
be followed by `.md`; the greedy `\s+` takes the maximal whitespace prefix
of `r` unless that would leave the class part empty, in which case it
backtracks by one character.  Returns the capture (class part plus `.md`)
and the rest after the match. -/
def ctxAfter (u : Text) : Option (Text × Text) :=
  match u with
  | c :: _ =>
    if pyWsChar c then
      let r := u.takeWhile classChar
      if 2 ≤ r.length then
        match u.dropWhile classChar with
        | '.' :: 'm' :: 'd' :: rest2 =>
          let cls := r.dropWhile pyWsChar
          let capBase := if cls.isEmpty then r.drop (r.length - 1) else cls
          some (capBase ++ mdL, rest2)
        | _ => none
      else none
    else none
  | [] => none

/-- Pattern 2 of `_process_body_content` (obsidian.py): contextual mentions
`(?:from|in|see|based on|according to|source:|reference:)\s+([A-Za-z0-9_\-\s/]+\.md)`
with `re.IGNORECASE`. -/
def findContextualF : Nat → Text → List Text
  | 0, _ => []
  | _ + 1, [] => []
  | fuel + 1, c :: t =>
    match tryKw (c :: t) with
    | some k =>
      match ctxAfter ((c :: t).drop k) with
      | some (cap, rest) => cap :: findContextualF fuel rest
      | none => findContextualF fuel t
    | none => findContextualF fuel t

/-- Contextual mention candidates. -/
def findContextual (l : Text) : List Text := findContextualF l.length l

/-- `\b` between an optional previous character and the current one. -/
def boundaryBetween (prev : Option Char) (c : Char) : Bool :=
  match prev with
  | none => isWordChar c
  | some p => xor (isWordChar p) (isWordChar c)

/-- Does the class run contain a `/` with at least one class character on
each side (so that `class+ / class+` can split it)? -/
def hasMidSlash (r : Text) : Bool := ((r.drop 1).dropLast).contains '/'

/-- `\b` after the final `d` of `.md`: end of text or a non-word character. -/
def boundaryAfterD (l : Text) : Bool :=
  match l with
  | [] => true
  | a :: _ => !isWordChar a

/-- One attempted match of
`\b([A-Za-z0-9_\-\s/]+/[A-Za-z0-9_\-\s/]+\.md)\b` at the head, given the
previous character: requires a word boundary, a class character, a maximal
class run containing an interior `/`, then `.md` and a closing boundary.
The capture is the whole run plus `.md`. -/
def tryStandalone (prev : Option Char) (l : Text) : Option (Text × Text) :=
  match l with
  | c :: _ =>
    if boundaryBetween prev c && classChar c then
      let r := l.takeWhile classChar
      if hasMidSlash r then
        match l.dropWhile classChar with
        | '.' :: 'm' :: 'd' :: rest2 =>
          if boundaryAfterD rest2 then some (r ++ mdL, rest2) else none
        | _ => none
      else none
    else none
  | [] => none

/-- Pattern 3 of `_process_body_content`: standalone `dir/file.md` paths. -/
def findStandaloneF : Nat → Option Char → Text → List Text
  | 0, _, _ => []
  | _ + 1, _, [] => []
  | fuel + 1, prev, c :: t =>
    match tryStandalone prev (c :: t) with
    | some (cap, rest) => cap :: findStandaloneF fuel (some 'd') rest
    | none => findStandaloneF fuel (some c) t

/-- Standalone-path mention candidates. -/
def findStandalone (l : Text) : List Text := findStandaloneF l.length none l

/-- Order-preserving deduplication (first occurrence kept); models Python's
`set(potential_paths)` up to its unspecified iteration order. -/
def dedupFirst : List Text → List Text
  | [] => []
  | x :: xs => x :: (dedupFirst xs).filter (fun y => y ≠ x)

end Vault

namespace Vault

/-- Python's substring test `pat in s`. -/
def isSubstr (pat : Text) : Text → Bool
  | [] => pat.isEmpty
  | c :: t => pat.isPrefixOf (c :: t) || isSubstr pat t

/-- `_format_as_wiki_link`: the final path segment with one `.md` extension
removed, wrapped in a wiki span. -/
def formatAsWikiLink (path : Text) : Text := wikiSpan (stripMdExt (lastSeg path))

/-- `re.sub` of an escaped literal pattern `p0 :: ps` by `repl`:
non-overlapping left-to-right replacement of every occurrence. -/
def replaceAllF (p0 : Char) (ps repl : Text) : Nat → Text → Text
  | 0, l => l
  | _ + 1, [] => []
  | fuel + 1, c :: t =>
    if (p0 :: ps).isPrefixOf (c :: t) then
      repl ++ replaceAllF p0 ps repl fuel ((c :: t).drop (ps.length + 1))
    else c :: replaceAllF p0 ps repl fuel t

/-- Literal replacement of every occurrence of `p0 :: ps` by `repl`. -/
def replaceAll (p0 : Char) (ps repl l : Text) : Text :=
  replaceAllF p0 ps repl l.length l

/-- The last two source characters of a consumed nonempty span, as the new
lookbehind context (Python lookbehinds inspect the source string). -/
def lastTwo (p2 p1 : Option Char) (consumed : Text) : Option Char × Option Char :=
  match consumed.reverse with
  | a :: b :: _ => (some b, some a)
  | a :: [] => (p1, some a)
  | [] => (p2, p1)

/-- The lookbehinds `(?<!\[\[)(?<!")(?<!')(?<!\w)` over the two preceding
source characters. -/
def okBefore (p2 p1 : Option Char) : Bool :=
  (match p1 with
   | none => true
   | some a => a ≠ dq && a ≠ sq && !isWordChar a) &&
  (match p2, p1 with
   | some '[', some '[' => false
   | _, _ => true)

/-- The lookaheads `(?!\]\])(?!")(?!')(?!\w)` over the following source
characters. -/
def okAfter (l : Text) : Bool :=
  match l with
  | [] => true
  | a :: t => a ≠ dq && a ≠ sq && !isWordChar a && !(a = ']' && t.head? = some ']')

/-- `re.sub` of the guarded unquoted-mention pattern
`(?<!\[\[)(?<!")(?<!')(?<!\w){path}(?!\]\])(?!")(?!')(?!\w)` for the literal
path `p0 :: ps`, replacement `repl`; `p2`/`p1` are the two preceding source
characters. -/
def replaceUnquotedF (p0 : Char) (ps repl : Text) : Nat → Option Char → Option Char → Text → Text
  | 0, _, _, l => l
  | _ + 1, _, _, [] => []
  | fuel + 1, p2, p1, c :: t =>
    if (p0 :: ps).isPrefixOf (c :: t) && okBefore p2 p1 &&
        okAfter ((c :: t).drop (ps.length + 1)) then
      let np := lastTwo p2 p1 (p0 :: ps)
      repl ++ replaceUnquotedF p0 ps repl fuel np.1 np.2 ((c :: t).drop (ps.length + 1))
    else c :: replaceUnquotedF p0 ps repl fuel p1 (some c) t

/-- Guarded unquoted replacement over a whole text. -/
def replaceUnquoted (p0 : Char) (ps repl l : Text) : Text :=
  replaceUnquotedF p0 ps repl l.length none none l

/-- One iteration of the candidate loop of
`obsidian.py::_process_body_content`: strip the candidate, skip empty / URL
/ already-linked candidates, check existence, then replace quoted and
unquoted occurrences by the canonical wiki link. -/
def mentionStep (ex : Text → Bool) (content : Text) (path0 : Text) : Text :=
  let path := pyStrip path0
  if path.isEmpty then content
  else if ("http://".toList).isPrefixOf path || ("https://".toList).isPrefixOf path then
    content
  else
    let pwe := stripMdExt path
    if isSubstr (wikiSpan path) content || isSubstr (wikiSpan pwe) content then content
    else if ex path then
      let wl := formatAsWikiLink path
      let c1 := replaceAll dq (path ++ [dq]) wl content
      let c2 := replaceAll sq (path ++ [sq]) wl c1
      match path with
      | p0 :: ps => replaceUnquoted p0 ps wl c2
      | [] => c2
    else content

/-- `obsidian.py::_process_body_content`: normalize existing wiki links,
short-circuit when more than 10 remain, otherwise collect the mention
candidates of the three pattern groups (in source order: double-quoted,
single-quoted, contextual, standalone), deduplicate, and run the candidate
loop. -/
def obsProcessBody (ex : Text → Bool) (content : Text) : Text :=
  let c1 := subWiki (obsNormLink ex) content
  if 10 < (findWiki c1).length then c1
  else
    let cands := findQuoted dq c1 ++ findQuoted sq c1 ++ findContextual c1 ++ findStandalone c1
    (dedupFirst cands).foldl (mentionStep ex) c1

/-- The frontmatter delimiter `"---\n"` used by `_auto_link_content`. -/
def headerSep : Text := ("---\n".toList)

/-- Python `l.split(sep, ...)` building block: text before and after the
leftmost occurrence of a (nonempty) separator sequence. -/
def splitOnceL (sep : Text) : Text → Option (Text × Text)
  | [] => none
  | c :: t =>
    if sep.isPrefixOf (c :: t) then some ([], (c :: t).drop sep.length)
    else
      match splitOnceL sep t with
      | some (a, b) => some (c :: a, b)
      | none => none

/-- Python `content.split(sep, 2)` (at most three parts, later searches
resume after the previous separator). -/
def pySplit2 (sep : Text) (l : Text) : List Text :=
  match splitOnceL sep l with
  | none => [l]
  | some (a, r) =>
    match splitOnceL sep r with
    | none => [a, r]
    | some (b, r2) => [a, b, r2]

/-- The header-split-and-reassemble skeleton of `_auto_link_content`,
parametrised by the frontmatter normalizer `fmF` and the body processor
`bodyF`: if the content starts with `---\n` and splits (maxsplit 2) into
three parts, reassemble as `---\n + fmF header + ---\n + bodyF body`;
otherwise process the whole content as body. -/
def autoLinkGen (fmF bodyF : Text → Text) (content : Text) : Text :=
  if headerSep.isPrefixOf content then
    match pySplit2 headerSep content with
    | [_, fm, body] => headerSep ++ fmF fm ++ headerSep ++ bodyF body
    | _ => bodyF content
  else bodyF content

/-- `obsidian.py::_auto_link_content` (the public `rewrite`):
`_normalize_frontmatter_links` is the same wiki-link `re.sub` with a
byte-identical handler, so the frontmatter normalizer is
`subWiki (obsNormLink ex)`. -/
def obsAutoLink (ex : Text → Bool) (content : Text) : Text :=
  autoLinkGen (subWiki (obsNormLink ex)) (obsProcessBody ex) content

/-- One attempted match of `\[\[([^\]|]+)(?:\|[^\]]+)?\]\]` at the head
(the wiki pattern of `obsidian.py::get_links_in_file`): the capture stops
at `]` or `|`; an optional nonempty display part may follow. -/
def tryWikiT : Text → Option (Text × Text)
  | '[' :: '[' :: r =>
    let cap := r.takeWhile (fun c => c ≠ ']' && c ≠ '|')
    if cap.isEmpty then none
    else
      match r.drop cap.length with
      | ']' :: ']' :: rest => some (cap, rest)
      | '|' :: r2 =>
        let d := r2.takeWhile (fun c => c ≠ ']')
        if d.isEmpty then none
        else
          match r2.drop d.length with
          | ']' :: ']' :: rest => some (cap, rest)
          | _ => none
      | _ => none
  | _ => none

/-- `re.findall` of the target-capturing wiki pattern. -/
def findWikiTargetsF : Nat → Text → List Text
  | 0, _ => []
  | _ + 1, [] => []
  | fuel + 1, c :: t =>
    match tryWikiT (c :: t) with
    | some (cap, rest) => cap :: findWikiTargetsF fuel rest
    | none => findWikiTargetsF fuel t

/-- Wiki-link targets of a text, per `obsidian.py::get_links_in_file`. -/
def findWikiTargets (l : Text) : List Text := findWikiTargetsF l.length l

/-- One attempted match of `\[([^\]]+)\]\(([^\)]+)\)` at the head (markdown
links): display text, then `](`, then a URL, then `)`. -/
def tryMd : Text → Option ((Text × Text) × Text)
  | '[' :: r =>
    let a := r.takeWhile (fun c => c ≠ ']')
    if a.isEmpty then none
    else
      match r.drop a.length with
      | ']' :: '(' :: r2 =>
        let u := r2.takeWhile (fun c => c ≠ ')')
        if u.isEmpty then none
        else
          match r2.drop u.length with
          | ')' :: rest => some ((a, u), rest)
          | _ => none
      | _ => none
  | _ => none

/-- `re.findall` of the markdown-link pattern: `(display, url)` pairs. -/
def findMdPairsF : Nat → Text → List (Text × Text)
  | 0, _ => []
  | _ + 1, [] => []
  | fuel + 1, c :: t =>
    match tryMd (c :: t) with
    | some (p, rest) => p :: findMdPairsF fuel rest
    | none => findMdPairsF fuel t

/-- Markdown `(display, url)` pairs of a text. -/
def findMdPairs (l : Text) : List (Text × Text) := findMdPairsF l.length l

/-- `obsidian.py::get_links_in_file` on already-read content:
`(wiki_links, markdown_links)`, where markdown links KEEP only urls that do
NOT start with `http`. -/
def obsGetLinks (content : Text) : List Text × List Text :=
  (findWikiTargets content,
   (findMdPairs content).filterMap
     (fun p => if ("http".toList).isPrefixOf p.2 then none else some p.2))

/-- `github_backend.py::get_links_in_file` on already-read content:
`(internal, external)`, where external keeps only urls that DO start with
`http` (and internal uses the full-capture pattern `\[\[([^\]]+)\]\]`). -/
def ghGetLinks (content : Text) : List Text × List Text :=
  (findWiki content,
   (findMdPairs content).filterMap
     (fun p => if ("http".toList).isPrefixOf p.2 then some p.2 else none))

/-- Python `filename.rsplit(".", 1)[0] if "." in filename else filename`. -/
def rsplitDotHead (l : Text) : Text :=
  match splitFirst '.' l.reverse with
  | some (_, b) => b.reverse
  | none => l

/-- `obsidian.py::get_backlinks`, with the backend search results (paths
returned by `self.search(basename)`) and the readable corpus (path,
content) passed in as data, since both are backend I/O: keep a result path
when it is nonempty, differs from the target path, is readable, and one of
its extracted links contains the basename or the full path as a substring;
finally deduplicate (`list(set(...))`). -/
def obsGetBacklinks (corpus : List (Text × Text)) (results : List Text)
    (filepath : Text) : List Text :=
  let filename := lastSeg filepath
  let basename := rsplitDotHead filename
  dedupFirst (results.filterMap (fun ref =>
    if ref ≠ [] ∧ ref ≠ filepath then
      match corpus.find? (fun e => e.1 == ref) with
      | some e =>
        let ls := obsGetLinks e.2
        if (ls.1 ++ ls.2).any (fun lnk =>
            isSubstr basename lnk || isSubstr filepath lnk) then some ref
        else none
      | none => none
    else none))

/-- The existence cache: insertion-ordered path/boolean pairs, as a Python
dict (created empty in `__init__`). -/
abbrev Cache := List (Text × Bool)

/-- Dictionary lookup (`filepath in self._file_existence_cache`). -/
def cacheLookup (c : Cache) (p : Text) : Option Bool :=
  (c.find? (fun e => e.1 == p)).map (fun e => e.2)

/-- `_file_exists_in_vault`: consult the cache, otherwise query the backend
oracle (`get_file_contents` succeeding or raising) and record the answer. -/
def fileExistsCached (cache : Cache) (oracle : Text → Bool) (p : Text) :
    Bool × Cache :=
  match cacheLookup cache p with
  | some b => (b, cache)
  | none => (oracle p, cache ++ [(p, oracle p)])

end Vault

namespace Vault

/-- Trace model of the Python `or` chain over `_file_exists_in_vault`
probes: the list of candidates actually queried, in order, and the overall
result.  Python `or` short-circuits, so probing stops at the first hit. -/
def probeTrace (ex : Text → Bool) : List Text → List Text × Bool
  | [] => ([], false)
  | c :: cs =>
    if ex c then ([c], true)
    else
      let r := probeTrace ex cs
      (c :: r.1, r.2)

/-- The probe trace of the resolution test for one target. -/
def resolveTrace (ex : Text → Bool) (t : Text) : List Text × Bool :=
  probeTrace ex (resolveCandidates t)

end Vault

namespace Vault

/-- `probeTrace` queries exactly the candidates up to and including the
first hit (all of them when none hits), and returns whether any hits. -/
theorem probeTrace_eq (ex : Text → Bool) :
    ∀ cs : List Text,
      probeTrace ex cs =
        (cs.takeWhile (fun c => !ex c) ++ (cs.dropWhile (fun c => !ex c)).take 1,
          cs.any ex)
  | [] => by simp [probeTrace]
  | c :: cs => by
    cases h : ex c with
    | true => simp [probeTrace, h]
    | false => simp [probeTrace, h, probeTrace_eq ex cs]

/-- A failed resolution leaves the API backend's normalizer output equal to
the original span. -/
theorem obsNormLink_fail (ex : Text → Bool) (c : Text)
    (h : obsLinkResolveOk ex c = false) : obsNormLink ex c = wikiSpan c := by
  unfold obsNormLink
  unfold obsLinkResolveOk at h
  by_cases hc : c.contains '|'
  · rw [if_pos hc] at h ⊢
    cases hsp : splitFirst '|' c with
    | none => simp [hsp]
    | some pd =>
      obtain ⟨p0, d0⟩ := pd
      rw [hsp] at h
      have h2 : resolveOk ex (pyStrip p0) = false := h
      simp [h2]
  · rw [if_neg hc] at h ⊢
    simp [h]

/-- A failed resolution leaves the local backend's normalizer output equal
to the original span. -/
theorem ghNormLink_fail (ex : Text → Bool) (c : Text)
    (h : ghLinkResolveOk ex c = false) : ghNormLink ex c = wikiSpan c := by
  unfold ghNormLink
  unfold ghLinkResolveOk at h
  by_cases hc : c.contains '|'
  · rw [if_pos hc] at h ⊢
    cases hsp : splitFirst '|' c with
    | none => simp [hsp]
    | some pd =>
      obtain ⟨lp, d⟩ := pd
      rw [hsp] at h
      have h2 : resolveOk ex lp = false := h
      simp [h2]
  · rw [if_neg hc] at h ⊢
    simp [h]

end Vault

namespace Vault

/-- Splitting at the leftmost separator occurrence and joining back with the
separator reproduces the original text. -/
theorem splitOnceL_join (sep : Text) :
    ∀ l a b, splitOnceL sep l = some (a, b) → a ++ sep ++ b = l
  | [], a, b => by simp [splitOnceL]
  | c :: t, a, b => by
    unfold splitOnceL
    by_cases hp : sep.isPrefixOf (c :: t)
    · rw [if_pos hp]
      intro h
      simp only [Option.some.injEq, Prod.mk.injEq] at h
      obtain ⟨ha, hb⟩ := h
      obtain ⟨u, hu⟩ := List.isPrefixOf_iff_prefix.mp hp
      subst ha
      subst hb
      rw [← hu]
      simp [List.drop_left]
    · rw [if_neg hp]
      cases hr : splitOnceL sep t with
      | none => intro h; cases h
      | some ab =>
        obtain ⟨a0, b0⟩ := ab
        intro h
        have h2 : (some (c :: a0, b0) : Option (Text × Text)) = some (a, b) := h
        simp only [Option.some.injEq, Prod.mk.injEq] at h2
        obtain ⟨ha, hb⟩ := h2
        subst ha
        subst hb
        have hj := splitOnceL_join sep t a0 b0 hr
        simp only [List.cons_append, List.append_assoc] at hj ⊢
        rw [hj]

/-- A text that starts with the (nonempty) separator splits at position
zero. -/
theorem splitOnceL_self (sep r : Text) (hne : sep ≠ []) :
    splitOnceL sep (sep ++ r) = some ([], r) := by
  cases sep with
  | nil => exact absurd rfl hne
  | cons s ss =>
    rw [List.cons_append]
    unfold splitOnceL
    have hp : (s :: ss).isPrefixOf (s :: (ss ++ r)) = true := by
      rw [ List.isPrefixOf_iff_prefix]
      exact ⟨r, by simp⟩
    rw [if_pos hp]
    simp [List.drop_left]

/-- A text containing the (nonempty) separator splits. -/
theorem splitOnceL_isSome (sep : Text) (hne : sep ≠ []) :
    ∀ h b : Text, (splitOnceL sep (h ++ sep ++ b)).isSome = true
  | [], b => by
    rw [List.nil_append, splitOnceL_self sep b hne]
    rfl
  | c :: h2, b => by
    rw [List.cons_append, List.cons_append]
    unfold splitOnceL
    split
    · rfl
    · cases hr : splitOnceL sep (h2 ++ sep ++ b) with
      | none =>
        have ih := splitOnceL_isSome sep hne h2 b
        rw [hr] at ih
        simp at ih
      | some ab =>
        obtain ⟨a1, b1⟩ := ab
        rfl

end Vault

namespace Vault

/-- Membership in the deduplicated list implies membership in the original. -/
theorem mem_dedupFirst {x : Text} : ∀ {l : List Text}, x ∈ dedupFirst l → x ∈ l
  | [], h => by simp [dedupFirst] at h
  | y :: ys, h => by
    unfold dedupFirst at h
    rcases List.mem_cons.mp h with h1 | h1
    · exact h1 ▸ List.mem_cons_self y ys
    · exact List.mem_cons_of_mem y (mem_dedupFirst (List.mem_filter.mp h1).1)

/-- Appending an entry preserves every existing cache binding (`find?` finds
the leftmost match first). -/
theorem cacheLookup_append (c : Cache) (e : Text × Bool) (k : Text) (v : Bool)
    (h : cacheLookup c k = some v) : cacheLookup (c ++ [e]) k = some v := by
  unfold cacheLookup at h ⊢
  rw [List.find?_append]
  cases hf : c.find? (fun e => e.1 == k) with
  | none => rw [hf] at h; cases h
  | some a => rw [hf] at h; simp [Option.or, h, hf]

/-- A freshly appended binding is found when the key was absent before. -/
theorem cacheLookup_append_self (c : Cache) (p : Text) (b : Bool)
    (h : cacheLookup c p = none) : cacheLookup (c ++ [(p, b)]) p = some b := by
  unfold cacheLookup at h ⊢
  rw [List.find?_append]
  cases hf : c.find? (fun e => e.1 == p) with
  | none => simp [Option.or, List.find?]
  | some a => rw [hf] at h; cases h

end Vault

namespace Vault

/-- Claim C7: For every Reference target, the resolution test queries the four
existence candidates in exactly the order `original_clean`,
`original_clean + ".md"`, `normalized_name`, `normalized_name + ".md"`,
stopping at (and succeeding on) the first candidate that exists — the
queried prefix is the non-existing candidates followed by the first hit,
the result is whether any candidate exists, and it agrees with the
normalizer's own success condition. -/
theorem resolution_probe_order (ex : Text → Bool) (t : Text) :
    (resolveTrace ex t).1 =
      (resolveCandidates t).takeWhile (fun c => !ex c) ++
        ((resolveCandidates t).dropWhile (fun c => !ex c)).take 1 ∧
    (resolveTrace ex t).2 = (resolveCandidates t).any ex ∧
    (resolveTrace ex t).2 = resolveOk ex t := by
  have h := probeTrace_eq ex (resolveCandidates t)
  unfold resolveTrace
  rw [h]
  refine ⟨rfl, rfl, ?_⟩
  unfold resolveCandidates resolveOk
  cases h1 : ex (origClean t) <;> cases h2 : ex (origClean t ++ mdL) <;>
    cases h3 : ex (normalizedName t) <;> cases h4 : ex (normalizedName t ++ mdL) <;>
    simp [h1, h2, h3, h4]

/-- Claim C3: When the resolution test fails (none of the four candidates exists,
in either backend's normalizer), the normalizer emits the original span
`[[c]]` completely unchanged, byte for byte. -/
theorem normalizer_failure_preserves_span (ex : Text → Bool) (c : Text)
    (ho : obsLinkResolveOk ex c = false) (hg : ghLinkResolveOk ex c = false) :
    obsNormLink ex c = wikiSpan c ∧ ghNormLink ex c = wikiSpan c :=
  ⟨obsNormLink_fail ex c ho, ghNormLink_fail ex c hg⟩

/-- Witness for C3 at a concrete unresolvable reference. -/
theorem normalizer_failure_preserves_span_witness :
    obsNormLink (fun _ => false) ("dir/x.md".toList) = wikiSpan ("dir/x.md".toList) ∧
    ghNormLink (fun _ => false) ("dir/x.md".toList) = wikiSpan ("dir/x.md".toList) :=
  normalizer_failure_preserves_span (fun _ => false) ("dir/x.md".toList)
    (by decide) (by decide)

/-- Splitting `t ++ "|" ++ d` at the first pipe recovers `(t, d)` when `t`
is pipe-free. -/
theorem splitFirst_append_pipe :
    ∀ t d : Text, t.contains '|' = false → splitFirst '|' (t ++ '|' :: d) = some (t, d)
  | [], d, _ => by simp [splitFirst]
  | c :: t, d, h => by
    have hmem : c = '|' ∨ t.contains '|' = true → False := by
      intro hor
      cases hor with
      | inl he => subst he; simp [List.contains_cons] at h
      | inr he =>
        simp [List.contains_cons] at h
        exact h.2 (List.elem_iff.mp he)
    have hc : ¬ c = '|' := fun he => hmem (Or.inl he)
    have ht : t.contains '|' = false := by
      cases hh : t.contains '|' with
      | false => rfl
      | true => exact absurd (Or.inr hh) hmem
    rw [List.cons_append]
    unfold splitFirst
    rw [if_neg hc, splitFirst_append_pipe t d ht]

end Vault

namespace Vault

/-- Counterexample to claim C4: for the resolved reference `a| hi ` (target `a`
exists), the API backend's normalizer emits `[[a|hi]]` — no output of the
form `[[tgt| hi ]]` preserves the display ` hi ` byte for byte, because
`normalize_wiki_link` strips it. -/
theorem normalizer_display_not_verbatim :
    obsLinkResolveOk (fun p => p == ("a".toList)) ("a| hi ".toList) = true ∧
    ¬ ∃ tgt : Text,
        obsNormLink (fun p => p == ("a".toList)) ("a| hi ".toList) =
          wikiSpan (tgt ++ '|' :: (" hi ".toList)) := by
  constructor
  · decide
  · rintro ⟨tgt, hEq⟩
    have h1 : obsNormLink (fun p => p == ("a".toList)) ("a| hi ".toList) =
        ['[', '[', 'a', '|', 'h', 'i', ']', ']'] := by decide
    rw [h1] at hEq
    have h2 := congrArg List.length hEq
    simp [wikiSpan] at h2

/-- Claim C4 amended: for a resolved reference `t|d` (pipe-free `t`), the API
backend emits the display `d` stripped of leading/trailing whitespace,
while the local backend emits it byte-for-byte verbatim. -/
theorem normalizer_display_handling (ex : Text → Bool) (t d : Text)
    (ht : t.contains '|' = false) :
    (resolveOk ex (pyStrip t) = true →
      obsNormLink ex (t ++ '|' :: d) =
        wikiSpan (normalizedName (pyStrip t) ++ '|' :: pyStrip d)) ∧
    (resolveOk ex t = true →
      ghNormLink ex (t ++ '|' :: d) = wikiSpan (normalizedName t ++ '|' :: d)) := by
  have hcont : (t ++ '|' :: d).contains '|' = true := by
    have hm : '|' ∈ t ++ '|' :: d := by simp
    exact List.elem_iff.mpr hm
  have hsp := splitFirst_append_pipe t d ht
  constructor
  · intro hres
    unfold obsNormLink
    rw [if_pos hcont, hsp]
    simp [hres]
  · intro hres
    unfold ghNormLink
    rw [if_pos hcont, hsp]
    simp [hres]

/-- Witness for C4 amended at the counterexample's reference. -/
theorem normalizer_display_handling_witness :
    obsNormLink (fun p => p == ("a".toList)) (("a".toList) ++ '|' :: (" hi ".toList)) =
      wikiSpan (normalizedName (pyStrip ("a".toList)) ++ '|' :: pyStrip (" hi ".toList)) ∧
    ghNormLink (fun p => p == ("a".toList)) (("a".toList) ++ '|' :: (" hi ".toList)) =
      wikiSpan (normalizedName ("a".toList) ++ '|' :: (" hi ".toList)) :=
  ⟨(normalizer_display_handling (fun p => p == ("a".toList)) ("a".toList) (" hi ".toList)
      (by decide)).1 (by decide),
   (normalizer_display_handling (fun p => p == ("a".toList)) ("a".toList) (" hi ".toList)
      (by decide)).2 (by decide)⟩

/-- Claim C2 amended: every change the rewrite makes is existence-guarded — the
normalizer rewrites a Reference only when its resolution test succeeds, and
the mention loop changes the content only when the existence check for the
(stripped) candidate path returns true.  (The emitted target is the bare
name of the probed path, which need not itself satisfy the existence
check — see the counterexample.) -/
theorem rewrite_changes_existence_guarded :
    (∀ (ex : Text → Bool) (c : Text),
      obsNormLink ex c ≠ wikiSpan c → obsLinkResolveOk ex c = true) ∧
    (∀ (ex : Text → Bool) (content path : Text),
      mentionStep ex content path ≠ content → ex (pyStrip path) = true) := by
  constructor
  · intro ex c h
    cases hr : obsLinkResolveOk ex c with
    | true => rfl
    | false => exact absurd (obsNormLink_fail ex c hr) h
  · intro ex content path h
    simp only [mentionStep] at h
    split at h
    · exact absurd rfl h
    · split at h
      · exact absurd rfl h
      · split at h
        · exact absurd rfl h
        · split at h
          next hex => exact hex
          next hex => exact absurd rfl h

/-- Witness for C2 amended: a changed reference implies a successful
resolution test. -/
theorem rewrite_changes_existence_guarded_witness :
    obsLinkResolveOk (fun p => p == ("a".toList)) ("./a".toList) = true :=
  rewrite_changes_existence_guarded.1 (fun p => p == ("a".toList)) ("./a".toList)
    (by decide)

end Vault

namespace Vault

/-- Claim C5: for any text that begins with a well-formed header block
(`---\n`, header text, `---\n`, body), splitting via `_auto_link_content`'s
skeleton and reassembling with no normalizer applied reproduces the
original text exactly, byte for byte. -/
theorem header_split_reassemble_roundtrip (h b : Text) :
    autoLinkGen id id (headerSep ++ h ++ headerSep ++ b) =
      headerSep ++ h ++ headerSep ++ b := by
  have hne : headerSep ≠ [] := by decide
  have hassoc : headerSep ++ h ++ headerSep ++ b =
      headerSep ++ (h ++ headerSep ++ b) := by
    simp [List.append_assoc]
  rw [hassoc]
  have hp : headerSep.isPrefixOf (headerSep ++ (h ++ headerSep ++ b)) = true := by
    rw [ List.isPrefixOf_iff_prefix]
    exact List.prefix_append headerSep (h ++ headerSep ++ b)
  obtain ⟨⟨x, y⟩, hr⟩ : ∃ ab, splitOnceL headerSep (h ++ headerSep ++ b) = some ab := by
    have e2 := splitOnceL_isSome headerSep hne h b
    exact Option.isSome_iff_exists.mp e2
  have hsplit : pySplit2 headerSep (headerSep ++ (h ++ headerSep ++ b)) =
      [[], x, y] := by
    unfold pySplit2
    rw [splitOnceL_self headerSep (h ++ headerSep ++ b) hne]
    dsimp only
    rw [hr]
  have hj := splitOnceL_join headerSep (h ++ headerSep ++ b) x y hr
  unfold autoLinkGen
  rw [if_pos hp, hsplit]
  show headerSep ++ id x ++ headerSep ++ id y = headerSep ++ (h ++ headerSep ++ b)
  simp only [id]
  rw [← hj]
  simp [List.append_assoc]

/-- Claim C6: when the body, after normalization of its existing delimited
References, still contains more than 10 (i.e. 11 or more) wiki links, the
Mention Detector returns exactly the normalized content: no new References
are added, while every existing Reference has been individually normalized
by `normalize_wiki_link`. -/
theorem mention_threshold_short_circuit (ex : Text → Bool) (x : Text)
    (h : 10 < (findWiki (subWiki (obsNormLink ex) x)).length) :
    obsProcessBody ex x = subWiki (obsNormLink ex) x := by
  unfold obsProcessBody
  simp [h]

/-- Witness for C6 on a body of 11 references (unresolvable oracle, so
normalization leaves each unchanged). -/
theorem mention_threshold_short_circuit_witness :
    obsProcessBody (fun _ => false)
        (("[[a]][[b]][[c]][[d]][[e]][[f]][[g]][[h]][[i]][[j]][[k]]".toList)) =
      subWiki (obsNormLink (fun _ => false))
        (("[[a]][[b]][[c]][[d]][[e]][[f]][[g]][[h]][[i]][[j]][[k]]".toList)) :=
  mention_threshold_short_circuit (fun _ => false)
    (("[[a]][[b]][[c]][[d]][[e]][[f]][[g]][[h]][[i]][[j]][[k]]".toList)) (by decide)

/-- Claim C9: the Existence Cache only grows — a query preserves every existing
binding, either leaves the cache unchanged (hit) or appends exactly one new
entry (miss), and a repeated query for the same path returns the same
boolean with the cache unchanged, even if the underlying backend state
(oracle) has changed in between. -/
theorem existence_cache_monotone (cache : Cache) (oracle : Text → Bool) (p : Text) :
    (∀ k v, cacheLookup cache k = some v →
        cacheLookup (fileExistsCached cache oracle p).2 k = some v) ∧
    ((fileExistsCached cache oracle p).2 = cache ∨
      (fileExistsCached cache oracle p).2 =
        cache ++ [(p, (fileExistsCached cache oracle p).1)]) ∧
    (∀ oracle2 : Text → Bool,
      fileExistsCached (fileExistsCached cache oracle p).2 oracle2 p =
        ((fileExistsCached cache oracle p).1, (fileExistsCached cache oracle p).2)) := by
  cases hc : cacheLookup cache p with
  | some b =>
    have he : fileExistsCached cache oracle p = (b, cache) := by
      unfold fileExistsCached
      rw [hc]
    rw [he]
    refine ⟨fun k v hv => hv, Or.inl rfl, fun oracle2 => ?_⟩
    unfold fileExistsCached
    rw [hc]
  | none =>
    have he : fileExistsCached cache oracle p =
        (oracle p, cache ++ [(p, oracle p)]) := by
      unfold fileExistsCached
      rw [hc]
    rw [he]
    refine ⟨fun k v hv => cacheLookup_append cache (p, oracle p) k v hv,
      Or.inr rfl, fun oracle2 => ?_⟩
    unfold fileExistsCached
    rw [cacheLookup_append_self cache p (oracle p) hc]

/-- Witness for C9: a stale entry is served unchanged on a repeated query
under a different oracle. -/
theorem existence_cache_monotone_witness :
    fileExistsCached [(("a".toList), true)] (fun _ => false) ("a".toList) =
      (true, [(("a".toList), true)]) := by
  have he : fileExistsCached [] (fun _ => true) ("a".toList) =
      (true, [(("a".toList), true)]) := by decide
  have h := (existence_cache_monotone [] (fun _ => true) ("a".toList)).2.2
    (fun _ => false)
  rw [he] at h
  exact h

/-- Claim C10: the backlink query never reports the target note's own path, for
any search results and any corpus — the engine filters `ref_file != filepath`
before the link check. -/
theorem backlinks_exclude_self (corpus : List (Text × Text)) (results : List Text)
    (filepath : Text) :
    (obsGetBacklinks corpus results filepath).contains filepath = false := by
  cases hc : (obsGetBacklinks corpus results filepath).contains filepath with
  | false => rfl
  | true =>
    exfalso
    have hmem : filepath ∈ obsGetBacklinks corpus results filepath :=
      List.elem_iff.mp hc
    have hmem2 := mem_dedupFirst (by
      unfold obsGetBacklinks at hmem
      exact hmem)
    obtain ⟨ref, _, hf⟩ := List.mem_filterMap.mp hmem2
    by_cases hg : ref ≠ [] ∧ ref ≠ filepath
    · rw [if_pos hg] at hf
      cases hfind : (corpus.find? (fun e => e.1 == ref)) with
      | none => rw [hfind] at hf; cases hf
      | some e =>
        rw [hfind] at hf
        by_cases hany : ((obsGetLinks e.2).1 ++ (obsGetLinks e.2).2).any
            (fun lnk => isSubstr (rsplitDotHead (lastSeg filepath)) lnk ||
              isSubstr filepath lnk) = true
        · simp only [hany, if_true] at hf
          exact hg.2 (Option.some.injEq .. ▸ hf)
        · simp only [hany] at hf
          simp at hf
    · rw [if_neg hg] at hf
      cases hf

end Vault

namespace Vault

/-- Claim C1 (code bug): on the vault where exactly `a.md` exists, the rewrite maps
`[[a.md.md]]` to `[[a.md]]` and `[[a.md]]` to `[[a]]` — so applying the
rewrite twice differs from applying it once, refuting idempotence
(`normalize_wiki_link` strips only one `.md`, and a target whose bare name
still ends in `.md` resolves again on the next pass). -/
theorem rewrite_not_idempotent :
    obsAutoLink (fun p => p == ("a.md".toList)) ("[[a.md.md]]".toList) =
        ("[[a.md]]".toList) ∧
    obsAutoLink (fun p => p == ("a.md".toList)) ("[[a.md]]".toList) =
        ("[[a]]".toList) ∧
    obsAutoLink (fun p => p == ("a.md".toList))
        (obsAutoLink (fun p => p == ("a.md".toList)) ("[[a.md.md]]".toList)) ≠
      obsAutoLink (fun p => p == ("a.md".toList)) ("[[a.md.md]]".toList) := by
  refine ⟨by decide, by decide, by decide⟩

/-- Counterexample to claim C2: on the vault where exactly `notes/file.md` exists,
rewriting `[[notes/file.md]]` yields `[[file]]` — a Reference present in
the output but not in the input whose canonical target fails the existence
check both bare and with the extension. -/
theorem rewrite_safety_counterexample :
    ∃ r : Text,
      r ∈ findWiki (obsProcessBody (fun p => p == ("notes/file.md".toList))
            ("[[notes/file.md]]".toList)) ∧
      r ∉ findWiki ("[[notes/file.md]]".toList) ∧
      (fun p => p == ("notes/file.md".toList)) r = false ∧
      (fun p => p == ("notes/file.md".toList)) (r ++ mdL) = false := by
  refine ⟨("file".toList), by decide, by decide, by decide, by decide⟩

/-- Counterexample to claim C8: `get_links_in_file` of the API backend returns, as
its markdown-link list, exactly the urls with NO `http` scheme — on a note
with one `http` link and one relative link, the relative link is reported. -/
theorem links_filter_counterexample :
    ∃ u : Text,
      u ∈ (obsGetLinks (("[x](http://e.com) [y](rel.md)".toList))).2 ∧
      ("http".toList).isPrefixOf u = false := by
  refine ⟨("rel.md".toList), by decide, by decide⟩

/-- Claim C8 amended: the two backends filter markdown links with opposite
polarity — the local backend's external list contains only urls starting
with `http`, while the API backend's markdown-link list contains only urls
NOT starting with `http`. -/
theorem links_filter_polarity :
    (∀ (content u : Text), u ∈ (ghGetLinks content).2 →
      ("http".toList).isPrefixOf u = true) ∧
    (∀ (content u : Text), u ∈ (obsGetLinks content).2 →
      ("http".toList).isPrefixOf u = false) := by
  constructor
  · intro content u hu
    unfold ghGetLinks at hu
    obtain ⟨p, _, hp⟩ := List.mem_filterMap.mp hu
    by_cases hh : ("http".toList).isPrefixOf p.2 = true
    · rw [if_pos hh] at hp
      cases hp
      exact hh
    · rw [if_neg hh] at hp
      cases hp
  · intro content u hu
    unfold obsGetLinks at hu
    obtain ⟨p, _, hp⟩ := List.mem_filterMap.mp hu
    by_cases hh : ("http".toList).isPrefixOf p.2 = true
    · rw [if_pos hh] at hp
      cases hp
    · rw [if_neg hh] at hp
      cases hp
      exact Bool.eq_false_iff.mpr hh

/-- Witness for C8 amended on a concrete note. -/
theorem links_filter_polarity_witness :
    ("http".toList).isPrefixOf ("http://e.com".toList) = true :=
  links_filter_polarity.1 (("[x](http://e.com)".toList)) (("http://e.com".toList))
    (by decide)

end Vault
